import Mathlib

/-!
Verification of the adonis-controller-validator analysis pipeline.

The TypeScript sources are shallowly embedded: the ts-morph syntax-tree
nodes the code queries (call expressions, their callee text, argument
lists, array-literal elements, method declarations, parameter texts,
return statements) are modelled as plain structures carrying exactly the
data the code reads, and every function of the pipeline
(`parseRouteCall`, `parseRoutes`, `groupRoutesByController`,
`analyzeController`, the three rule checkers, `validateMethod`,
`runValidation`) is translated line by line.  The JavaScript regular
expressions the code applies to node text are embedded as executable
scanners over the character list of the string.
-/

set_option autoImplicit false

namespace AdonisValidator

/-- Character class of the regex `[a-zA-Z_]` used by `extractPathParams`. -/
def isParamChar (c : Char) : Bool :=
  c.isLower || c.isUpper || c == '_'

/-- Character class of the regex word class `\w`, i.e. `[A-Za-z0-9_]`. -/
def isWordChar (c : Char) : Bool :=
  c.isAlpha || c.isDigit || c == '_'

/-- Whitespace characters matched by the regex class `\s` (ASCII part). -/
def isSpaceChar (c : Char) : Bool :=
  c == ' ' || c == '\t' || c == '\n' || c == '\r' || c.toNat == 11 || c.toNat == 12

/-- Single-quote character, written by code point to keep sources plain. -/
def singleQuote : Char := Char.ofNat 39

/-- Double-quote character, written by code point to keep sources plain. -/
def doubleQuote : Char := Char.ofNat 34

/-- The effect of `.replace(/['"]/g, "")`: every quote character of the
string is removed, wherever it occurs. -/
def stripQuotes (s : String) : String :=
  String.mk (s.data.filter (fun c => !(c == singleQuote || c == doubleQuote)))

/-- Substring test on character lists: some suffix of the haystack starts
with the needle.  Embeds JavaScript `String.prototype.includes`. -/
def containsSubAux (needle : List Char) : List Char → Bool
  | [] => needle.isPrefixOf []
  | c :: cs => needle.isPrefixOf (c :: cs) || containsSubAux needle cs

/-- `containsSub hay needle` is `hay.includes(needle)`. -/
def containsSub (hay needle : String) : Bool :=
  containsSubAux needle.data hay.data

/-- The word `w` matches at the head of `s` with a word boundary after it:
`w` is a prefix of `s` and the character following it, if any, is not a
word character. -/
def matchWordHere (w s : List Char) : Bool :=
  w.isPrefixOf s &&
    (match s.drop w.length with
     | [] => true
     | c :: _ => !isWordChar c)

/-- Scan of the regex `\b<w>\b` over `s`; `prev` is the character right
before the current position (none at the start of the string). -/
def containsWordAux (w : List Char) (prev : Option Char) (s : List Char) : Bool :=
  ((match prev with
    | none => true
    | some c => !isWordChar c) && matchWordHere w s) ||
  (match s with
   | [] => false
   | c :: cs => containsWordAux w (some c) cs)

/-- `containsWord w s` is the JavaScript test `/\b<w>\b/.test(s)` for a word
`w` made of word characters. -/
def containsWord (w s : String) : Bool :=
  containsWordAux w.data none s.data

/-- After an occurrence of `successResponse`, the regex tail `\s*<[^>]+>`
matches: optional whitespace, `<`, a nonempty run without `>`, then `>`. -/
def genericAfter (s : List Char) : Bool :=
  match s.dropWhile isSpaceChar with
  | '<' :: rest =>
    let inner := rest.takeWhile (fun c => !(c == '>'))
    !inner.isEmpty &&
      (match rest.drop inner.length with
       | '>' :: _ => true
       | _ => false)
  | _ => false

/-- Scan of the regex `/successResponse\s*<[^>]+>/` over a character list. -/
def hasGenericPatternAux : List Char → Bool
  | [] => false
  | c :: cs =>
    ("successResponse".data.isPrefixOf (c :: cs) &&
      genericAfter ((c :: cs).drop "successResponse".data.length)) ||
    hasGenericPatternAux cs

/-- Scan of the regex `/AppErrors\.\w+/` over a character list. -/
def hasAppErrorsPatternAux : List Char → Bool
  | [] => false
  | c :: cs =>
    ("AppErrors.".data.isPrefixOf (c :: cs) &&
      (match (c :: cs).drop "AppErrors.".data.length with
       | [] => false
       | d :: _ => isWordChar d)) ||
    hasAppErrorsPatternAux cs

/-- Global scan of the regex `/:([a-zA-Z_]+)/g`: at each colon, a nonempty
maximal run of `[a-zA-Z_]` characters is one match (captured without the
colon); scanning resumes after the run.  The recursion is driven by a fuel
counter, one unit per character, so the scan stays kernel-reducible; the
wrapper `scanParams` supplies the list's length, which is always enough
fuel because each step consumes at least one character. -/
def scanParamsFuel : Nat → List Char → List String
  | 0, _ => []
  | _, [] => []
  | fuel + 1, c :: cs =>
    if c == ':' then
      let ident := cs.takeWhile isParamChar
      if ident.isEmpty then scanParamsFuel fuel cs
      else String.mk ident :: scanParamsFuel fuel (cs.drop ident.length)
    else scanParamsFuel fuel cs

/-- The full scan of the regex `/:([a-zA-Z_]+)/g` over a character list. -/
def scanParams (l : List Char) : List String :=
  scanParamsFuel l.length l

/-- An argument node of a call expression, as the route parser reads it:
its source text, and its element texts when it is an
`ArrayLiteralExpression` (`arrayElems = none` for any other node kind). -/
structure ArgNode where
  text : String
  arrayElems : Option (List String)
  deriving DecidableEq

/-- A call expression of the routing file: the callee sub-expression's
text, the argument nodes, and the call's starting line number. -/
structure CallExpr where
  calleeText : String
  args : List ArgNode
  line : Nat
  deriving DecidableEq

/-- HTTP methods recognised by the route parser. -/
inductive HttpMethod where
  | get | post | patch | put | delete | any
  deriving DecidableEq

/-- A route extracted from the routing file (interface `RouteDefinition`
of `types.ts`). -/
structure RouteDefinition where
  method : HttpMethod
  path : String
  controller : String
  handler : String
  line : Nat
  hasPathParams : Bool
  pathParams : List String
  deriving DecidableEq

/-- Classification of a return statement (`types.ts`). -/
inductive ReturnKind where
  | successResponse | errorResponse | other
  deriving DecidableEq

/-- A classified return statement (`types.ts`, interface `ReturnStatement`);
the optional fields stay `none` for kinds they do not apply to. -/
structure ReturnStatement where
  line : Nat
  type : ReturnKind
  hasGenericType : Option Bool
  usesAppErrors : Option Bool
  text : String
  deriving DecidableEq

/-- Analysis of one controller method (`types.ts`, `MethodAnalysis`). -/
structure MethodAnalysis where
  controller : String
  method : String
  filePath : String
  line : Nat
  usesRequest : Bool
  usesParams : Bool
  hasValidateUsing : Bool
  returnStatements : List ReturnStatement
  deriving DecidableEq

/-- Rule identifiers of `types.ts` (`Violation.rule`). -/
inductive RuleId where
  | validateUsing | successResponseTyped | errorResponseAppErrors
  deriving DecidableEq

/-- Violation severities of `types.ts`. -/
inductive Severity where
  | error | warning
  deriving DecidableEq

/-- A rule violation (`types.ts`, `Violation`). -/
structure Violation where
  rule : RuleId
  message : String
  line : Nat
  severity : Severity
  deriving DecidableEq

/-- Verdict for a single method (`types.ts`, `ValidationResult`). -/
structure ValidationResult where
  controller : String
  method : String
  filePath : String
  line : Nat
  violations : List Violation
  passed : Bool
  deriving DecidableEq

/-- Configuration (`types.ts`, `ValidatorConfig`). -/
structure ValidatorConfig where
  routesFile : String
  controllersDir : String
  whitelist : List String
  strictMode : Bool
  failOnError : Bool
  appErrorsPath : String
  deriving DecidableEq

/-- `DEFAULT_CONFIG` of `types.ts`. -/
def DEFAULT_CONFIG : ValidatorConfig :=
  { routesFile := "start/routes.ts"
  , controllersDir := "app/controllers"
  , whitelist := []
  , strictMode := true
  , failOnError := true
  , appErrorsPath := "#lib/errors" }

/-- Aggregate result of a run (`runner.ts`, `RunResult`). -/
structure RunResult where
  totalMethods : Nat
  passedMethods : Nat
  failedMethods : Nat
  results : List ValidationResult
  violations : List ValidationResult
  deriving DecidableEq

/-- The verb table of the callee regex
`/router\.(get|post|patch|put|delete|any)$/`, in alternation order. -/
def httpVerbs : List (String × HttpMethod) :=
  [("get", .get), ("post", .post), ("patch", .patch),
   ("put", .put), ("delete", .delete), ("any", .any)]

/-- Match of the callee text against `/router\.(verb)$/`: the text must end
with `router.` followed by one of the verbs. -/
def calleeVerb (s : String) : Option HttpMethod :=
  (httpVerbs.find? (fun p => ("router." ++ p.1).data.isSuffixOf s.data)).map (·.2)

/-- `extractPathParams` of `route-parser.ts`: all matches of
`/:([a-zA-Z_]+)/g` in the path, each without its leading colon. -/
def extractPathParams (path : String) : List String :=
  scanParams path.data

/-- `parseRouteCall` of `route-parser.ts`: recognise one route-registration
call, or return `none` for any call of another shape. -/
def parseRouteCall (call : CallExpr) : Option RouteDefinition :=
  match calleeVerb call.calleeText with
  | none => none
  | some httpMethod =>
    match call.args with
    | pathArg :: handlerArg :: _ =>
      let path := stripQuotes pathArg.text
      match handlerArg.arrayElems with
      | none => none
      | some elems =>
        match elems with
        | [controllerName, methodText] =>
          let pathParams := extractPathParams path
          some
            { method := httpMethod
            , path := path
            , controller := controllerName
            , handler := stripQuotes methodText
            , line := call.line
            , hasPathParams := decide (pathParams.length > 0)
            , pathParams := pathParams }
        | _ => none
    | _ => none

/-- `parseRoutes` of `route-parser.ts`, over the call expressions of the
routing file: every call that parses as a route, in source order. -/
def parseRoutes (callExpressions : List CallExpr) : List RouteDefinition :=
  callExpressions.filterMap parseRouteCall

/-- Insertion step of `groupRoutesByController`: JavaScript `Map` `get` /
push / `set` semantics — append to the existing key's list in place, or
append a new key at the end. -/
def upsertRoute (grouped : List (String × List RouteDefinition)) (route : RouteDefinition) :
    List (String × List RouteDefinition) :=
  match grouped with
  | [] => [(route.controller, [route])]
  | (k, rs) :: rest =>
    if k = route.controller then (k, rs ++ [route]) :: rest
    else (k, rs) :: upsertRoute rest route

/-- `groupRoutesByController` of `route-parser.ts` as an insertion-ordered
association list. -/
def groupRoutesByController (routes : List RouteDefinition) :
    List (String × List RouteDefinition) :=
  routes.foldl upsertRoute []

/-- JavaScript `Map.set`: overwrite an existing key in place, else append. -/
def mapSet {α : Type} (m : List (String × α)) (k : String) (v : α) : List (String × α) :=
  match m with
  | [] => [(k, v)]
  | (k0, v0) :: rest =>
    if k0 = k then (k0, v) :: rest else (k0, v0) :: mapSet rest k v

/-- JavaScript `Map.get`: the value at the key, if present. -/
def mapGet? {α : Type} (m : List (String × α)) (k : String) : Option α :=
  match m with
  | [] => none
  | (k0, v0) :: rest => if k0 = k then some v0 else mapGet? rest k

/-- A return statement node of a method body: its starting line and the
returned expression's text (`none` for a bare `return`). -/
structure ReturnNode where
  line : Nat
  expr : Option String
  deriving DecidableEq

/-- A method declaration of a controller class, as the analyzer reads it:
name, parameter source texts, starting line, the callee texts of every
call expression in the body, and the return statement nodes. -/
structure MethodDecl where
  name : String
  params : List String
  line : Nat
  callees : List String
  returns : List ReturnNode
  deriving DecidableEq

/-- A class declaration: its name (`none` when anonymous) and methods. -/
structure ClassDecl where
  name : Option String
  methods : List MethodDecl
  deriving DecidableEq

/-- A controller source file: the class exported as default, if any. -/
structure ControllerFile where
  defaultClass : Option ClassDecl
  deriving DecidableEq

/-- `checkUsesRequest` of `controller-analyzer.ts`: the first parameter's
text, if there is one, matches `/\brequest\b/`. -/
def checkUsesRequest (method : MethodDecl) : Bool :=
  match method.params with
  | [] => false
  | paramText :: _ => containsWord "request" paramText

/-- `checkUsesParams` of `controller-analyzer.ts`: the first parameter's
text, if there is one, matches `/\bparams\b/`. -/
def checkUsesParams (method : MethodDecl) : Bool :=
  match method.params with
  | [] => false
  | paramText :: _ => containsWord "params" paramText

/-- `checkHasValidateUsing` of `controller-analyzer.ts`: some call
expression in the body has a callee text containing `validateUsing`. -/
def checkHasValidateUsing (method : MethodDecl) : Bool :=
  method.callees.any (fun text => containsSub text "validateUsing")

/-- `checkHasGenericType` of `controller-analyzer.ts`:
`/successResponse\s*<[^>]+>/.test(text)`. -/
def checkHasGenericType (text : String) : Bool :=
  hasGenericPatternAux text.data

/-- `checkUsesAppErrors` of `controller-analyzer.ts`:
`/AppErrors\.\w+/.test(text)`. -/
def checkUsesAppErrors (text : String) : Bool :=
  hasAppErrorsPatternAux text.data

/-- Classification of one return statement inside `analyzeReturnStatements`
of `controller-analyzer.ts`; a bare `return` is skipped. -/
def classifyReturn (ret : ReturnNode) : Option ReturnStatement :=
  match ret.expr with
  | none => none
  | some text =>
    if containsSub text "this.successResponse" then
      some { line := ret.line, type := .successResponse
           , hasGenericType := some (checkHasGenericType text)
           , usesAppErrors := none, text := text }
    else if containsSub text "this.errorResponse" then
      some { line := ret.line, type := .errorResponse
           , hasGenericType := none
           , usesAppErrors := some (checkUsesAppErrors text), text := text }
    else
      some { line := ret.line, type := .other
           , hasGenericType := none, usesAppErrors := none, text := text }

/-- `analyzeReturnStatements` of `controller-analyzer.ts`. -/
def analyzeReturnStatements (method : MethodDecl) : List ReturnStatement :=
  method.returns.filterMap classifyReturn

/-- `analyzeMethod` of `controller-analyzer.ts`. -/
def analyzeMethod (method : MethodDecl) (className filePath : String) : MethodAnalysis :=
  { controller := className
  , method := method.name
  , filePath := filePath
  , line := method.line
  , usesRequest := checkUsesRequest method
  , usesParams := checkUsesParams method
  , hasValidateUsing := checkHasValidateUsing method
  , returnStatements := analyzeReturnStatements method }

/-- `analyzeController` of `controller-analyzer.ts`: analyse every method
of the default-export class; an empty map when there is none. -/
def analyzeController (file : ControllerFile) (controllerPath : String) :
    List (String × MethodAnalysis) :=
  match file.defaultClass with
  | none => []
  | some classDecl =>
    let className := classDecl.name.getD "UnknownController"
    classDecl.methods.foldl
      (fun results method =>
        mapSet results method.name (analyzeMethod method className controllerPath))
      []

/-- `checkValidateUsing` of `validate-using-checker.ts`. -/
def checkValidateUsing (analysis : MethodAnalysis) : Option Violation :=
  if analysis.usesRequest && !analysis.hasValidateUsing then
    some { rule := .validateUsing
         , message := "Method uses request but does not call request.validateUsing(). All request data must be validated."
         , line := analysis.line
         , severity := .error }
  else if analysis.usesParams && !analysis.hasValidateUsing && !analysis.usesRequest then
    some { rule := .validateUsing
         , message := "Method uses params but does not call request.validateUsing(). Consider adding parameter validation."
         , line := analysis.line
         , severity := .warning }
  else none

/-- `checkSuccessResponse` of `success-response-checker.ts`: one error per
`successResponse` return without a generic type. -/
def checkSuccessResponse (analysis : MethodAnalysis) : List Violation :=
  analysis.returnStatements.filterMap (fun ret =>
    if ret.type = ReturnKind.successResponse && !(ret.hasGenericType.getD false) then
      some { rule := .successResponseTyped
           , message := "successResponse() missing generic type parameter. Use successResponse<Type>(data) for type safety."
           , line := ret.line
           , severity := .error }
    else none)

/-- `checkErrorResponse` of `error-response-checker.ts`: one error per
`errorResponse` return not using `AppErrors`, with a 50-character excerpt. -/
def checkErrorResponse (analysis : MethodAnalysis) : List Violation :=
  analysis.returnStatements.filterMap (fun ret =>
    if ret.type = ReturnKind.errorResponse && !(ret.usesAppErrors.getD false) then
      some { rule := .errorResponseAppErrors
           , message := "errorResponse() must use AppErrors constants. Found: " ++
               String.mk (ret.text.data.take 50) ++ "..."
           , line := ret.line
           , severity := .error }
    else none)

/-- `validateMethod` of `validators/index.ts`: the three checks in order,
then the pass flag. -/
def validateMethod (analysis : MethodAnalysis) : ValidationResult :=
  let violations :=
    (checkValidateUsing analysis).toList ++
    checkSuccessResponse analysis ++
    checkErrorResponse analysis
  { controller := analysis.controller
  , method := analysis.method
  , filePath := analysis.filePath
  , line := analysis.line
  , violations := violations
  , passed := violations.length == 0 }

/-- A project tree, as `runValidation` reads it: the call expressions of
the routing file, and the controller files keyed by resolved path
(`fs.existsSync` is a lookup hit). -/
structure ProjectModel where
  routeCalls : List CallExpr
  controllerFiles : List (String × ControllerFile)
  deriving DecidableEq

/-- `resolveControllerPath` of `runner.ts`: PascalCase to snake_case
(underscore between a lowercase letter and the uppercase letter following
it, via the global replace of `/([a-z])([A-Z])/`), lowercased, joined. -/
def insertUnderscores : List Char → List Char
  | [] => []
  | [c] => [c]
  | a :: b :: rest =>
    if a.isLower && b.isUpper then a :: '_' :: b :: insertUnderscores rest
    else a :: insertUnderscores (b :: rest)

/-- The PascalCase to snake_case file-name transform of `runner.ts`. -/
def pascalToSnake (s : String) : String :=
  String.mk ((insertUnderscores s.data).map Char.toLower)

/-- Path resolution of `runner.ts` (`path.join` modelled as slash-join). -/
def resolveControllerPath (projectPath controllersDir controllerName : String) : String :=
  projectPath ++ "/" ++ controllersDir ++ "/" ++ pascalToSnake controllerName ++ ".ts"

/-- Body of the inner route loop of `runValidation`: skip a whitelisted
key, skip a handler missing from the analyses, otherwise validate. -/
def routeVerdict? (whitelist : List String) (controllerName : String)
    (analyses : List (String × MethodAnalysis)) (route : RouteDefinition) :
    Option ValidationResult :=
  let methodKey := controllerName ++ "." ++ route.handler
  if whitelist.contains methodKey then none
  else
    match mapGet? analyses route.handler with
    | none => none
    | some analysis => some (validateMethod analysis)

/-- Body of the outer controller loop of `runValidation`: skip a controller
whose resolved file does not exist, otherwise analyse it once and run the
route loop over its routes. -/
def controllerResults (projectPath : String) (config : ValidatorConfig)
    (project : ProjectModel) (entry : String × List RouteDefinition) :
    List ValidationResult :=
  let controllerPath := resolveControllerPath projectPath config.controllersDir entry.1
  match mapGet? project.controllerFiles controllerPath with
  | none => []
  | some file =>
    let analyses := analyzeController file controllerPath
    entry.2.filterMap (routeVerdict? config.whitelist entry.1 analyses)

/-- `runValidation` of `runner.ts`. -/
def runValidation (projectPath : String) (project : ProjectModel)
    (config : ValidatorConfig) : RunResult :=
  let routes := parseRoutes project.routeCalls
  let routesByController := groupRoutesByController routes
  let results := routesByController.flatMap (controllerResults projectPath config project)
  let violations := results.filter (fun r => !r.passed)
  { totalMethods := results.length
  , passedMethods := (results.filter (fun r => r.passed)).length
  , failedMethods := violations.length
  , results := results
  , violations := violations }

/-- The controller names for which `runValidation` invokes
`analyzeController` (grouped controllers whose resolved file exists), in
iteration order: the run parses one file per element of this list. -/
def analyzedControllers (projectPath : String) (project : ProjectModel)
    (config : ValidatorConfig) : List String :=
  (groupRoutesByController (parseRoutes project.routeCalls)).filterMap (fun entry =>
    let controllerPath := resolveControllerPath projectPath config.controllersDir entry.1
    if (mapGet? project.controllerFiles controllerPath).isSome then some entry.1 else none)

/-- Variant of the route loop that tags each verdict with the route it came
from; used to state which routes contribute verdicts. -/
def routeVerdictTagged? (whitelist : List String) (controllerName : String)
    (analyses : List (String × MethodAnalysis)) (route : RouteDefinition) :
    Option (RouteDefinition × ValidationResult) :=
  (routeVerdict? whitelist controllerName analyses route).map (fun v => (route, v))

/-- `runValidation`'s verdict list with each verdict tagged by its route. -/
def taggedResults (projectPath : String) (project : ProjectModel)
    (config : ValidatorConfig) : List (RouteDefinition × ValidationResult) :=
  (groupRoutesByController (parseRoutes project.routeCalls)).flatMap (fun entry =>
    let controllerPath := resolveControllerPath projectPath config.controllersDir entry.1
    match mapGet? project.controllerFiles controllerPath with
    | none => []
    | some file =>
      let analyses := analyzeController file controllerPath
      entry.2.filterMap (routeVerdictTagged? config.whitelist entry.1 analyses))

/-- Shape test for the second call argument: a two-element array literal
(`route-parser.ts` lines 49-55 return `null` for any other shape). -/
def isHandlerArray (a : ArgNode) : Bool :=
  match a.arrayElems with
  | some [_, _] => true
  | _ => false

/-- A `Widget.show` method that reads only the route-parameters accessor,
calls no validation, and returns one typed success construction. -/
def widgetShowMethod : MethodDecl :=
  { name := "show"
  , params := ["{ params }: HttpContext"]
  , line := 4
  , callees := ["this.successResponse"]
  , returns := [{ line := 5, expr := some "this.successResponse<Widget>(w)" }] }

/-- The `Widget` controller class, exported as default. -/
def widgetClass : ClassDecl :=
  { name := some "Widget", methods := [widgetShowMethod] }

/-- The `Widget` controller file. -/
def widgetFile : ControllerFile :=
  { defaultClass := some widgetClass }

/-- The routing call `router.get("/x/:id", [Widget, "show"])`. -/
def widgetRouteCall : CallExpr :=
  { calleeText := "router.get"
  , args :=
      [ { text := "\"/x/:id\"", arrayElems := none }
      , { text := "[Widget, \"show\"]", arrayElems := some ["Widget", "\"show\""] } ]
  , line := 1 }

/-- A second routing call, `router.post("/x2", [Widget, "show"])`,
targeting the same controller method. -/
def widgetRouteCallTwo : CallExpr :=
  { calleeText := "router.post"
  , args :=
      [ { text := "\"/x2\"", arrayElems := none }
      , { text := "[Widget, \"show\"]", arrayElems := some ["Widget", "\"show\""] } ]
  , line := 2 }

/-- The route record `parseRouteCall` produces for `widgetRouteCall`. -/
def widgetRoute : RouteDefinition :=
  { method := .get, path := "/x/:id", controller := "Widget"
  , handler := "show", line := 1, hasPathParams := true, pathParams := ["id"] }

/-- One-route project: the end-to-end scenario of the spec. -/
def projectOne : ProjectModel :=
  { routeCalls := [widgetRouteCall]
  , controllerFiles := [("proj/app/controllers/widget.ts", widgetFile)] }

/-- Two-route project: both routes target `Widget.show`. -/
def projectTwoRoutes : ProjectModel :=
  { routeCalls := [widgetRouteCall, widgetRouteCallTwo]
  , controllerFiles := [("proj/app/controllers/widget.ts", widgetFile)] }

/-- A routing call whose path literal contains an inner escaped quote:
the first argument's source text is `"/a\"b"`. -/
def quoteyRouteCall : CallExpr :=
  { calleeText := "router.get"
  , args :=
      [ { text := "\"/a\\\"b\"", arrayElems := none }
      , { text := "[W, \"x\"]", arrayElems := some ["W", "\"x\""] } ]
  , line := 3 }

/-- The route record `parseRouteCall` produces for `quoteyRouteCall`: every
quote character of the path text is gone, the inner one included. -/
def quoteyRoute : RouteDefinition :=
  { method := .get, path := "/a\\b", controller := "W"
  , handler := "x", line := 3, hasPathParams := false, pathParams := [] }

theorem length_filter_partition {α : Type} (l : List α) (p : α → Bool) :
    (l.filter p).length + (l.filter (fun a => !p a)).length = l.length := by
  induction l with
  | nil => rfl
  | cons hd tl ih =>
    cases h : p hd <;> simp [List.filter_cons, h, Nat.add_assoc, Nat.add_left_comm, ih] <;> omega

/-- C1: on the one-route project of the spec's end-to-end scenario the
claimed summary `failedMethods = 0` is false: the warning-severity
violation makes the verdict failing, so `failedMethods = 1`. -/
theorem c1_scenario_counterexample :
    (runValidation "proj" projectOne DEFAULT_CONFIG).totalMethods = 1 ∧
    (runValidation "proj" projectOne DEFAULT_CONFIG).failedMethods ≠ 0 := by
  decide

/-- C1 (amended): the one-route scenario yields `totalMethods = 1` and
`failedMethods = 1`, the single verdict not passed, holding exactly one
warning-severity violation of the request-validation rule. -/
theorem c1_scenario_amended :
    (runValidation "proj" projectOne DEFAULT_CONFIG).totalMethods = 1 ∧
    (runValidation "proj" projectOne DEFAULT_CONFIG).failedMethods = 1 ∧
    (runValidation "proj" projectOne DEFAULT_CONFIG).results.map
        (fun r => (r.controller, r.method, r.passed,
          r.violations.map (fun v => (v.rule, v.severity)))) =
      [("Widget", "show", false, [(RuleId.validateUsing, Severity.warning)])] := by
  decide

/-- C2: two distinct routes targeting `Widget.show` give two verdicts for
that method, and `totalMethods` counts it twice, refuting the claimed
once-only evaluation. -/
theorem c2_duplicate_route_counterexample :
    ((runValidation "proj" projectTwoRoutes DEFAULT_CONFIG).results.filter
        (fun r : ValidationResult => r.method == "show")).length = 2 ∧
    (runValidation "proj" projectTwoRoutes DEFAULT_CONFIG).totalMethods = 2 := by
  decide

/-- C3: a parameter name containing a digit is cut at the digit: the code
extracts `id`, not `id2`, from `/users/:id2`. -/
theorem c3_digit_param_counterexample :
    extractPathParams "/users/:id2" = ["id"] ∧
    extractPathParams "/users/:id2" ≠ ["id2"] := by
  decide

/-- C5: for every run, `totalMethods = passedMethods + failedMethods`,
`totalMethods` is the length of the verdict list (also in the zero-method
run), and the failing list is exactly the `passed = false` filter of the
verdict list, in order. -/
theorem c5_run_summary_invariant (projectPath : String) (project : ProjectModel)
    (config : ValidatorConfig) :
    (runValidation projectPath project config).totalMethods =
        (runValidation projectPath project config).passedMethods +
          (runValidation projectPath project config).failedMethods ∧
    (runValidation projectPath project config).totalMethods =
        (runValidation projectPath project config).results.length ∧
    (runValidation projectPath project config).violations =
        (runValidation projectPath project config).results.filter (fun r : ValidationResult => !r.passed) := by
  refine ⟨?_, rfl, rfl⟩
  exact (length_filter_partition _ (fun r : ValidationResult => r.passed)).symm

/-- C9: the recorded path is the first argument's text with every quote
character removed, not only the surrounding ones: the inner quote of
`"/a\"b"` is removed too, so the path is `/a\b` and not `/a\"b`. -/
theorem c9_inner_quote_counterexample :
    (parseRouteCall quoteyRouteCall).map (fun r : RouteDefinition => r.path) = some "/a\\b" ∧
    (parseRouteCall quoteyRouteCall).map (fun r : RouteDefinition => r.path) ≠ some "/a\\\"b" := by
  decide

/-- C10: `strictMode` is never read by `runValidation`: changing it alone
changes nothing in the run's result. -/
theorem c10_strictMode_no_effect (projectPath : String) (project : ProjectModel)
    (config : ValidatorConfig) (b : Bool) :
    runValidation projectPath project { config with strictMode := b } =
      runValidation projectPath project config := rfl

theorem mem_checkSuccessResponse_rule (analysis : MethodAnalysis) (v : Violation)
    (h : v ∈ checkSuccessResponse analysis) : v.rule = RuleId.successResponseTyped := by
  rw [checkSuccessResponse, List.mem_filterMap] at h
  obtain ⟨ret, -, hsome⟩ := h
  split at hsome
  · cases hsome; rfl
  · exact absurd hsome (by simp)

theorem mem_checkErrorResponse_rule (analysis : MethodAnalysis) (v : Violation)
    (h : v ∈ checkErrorResponse analysis) : v.rule = RuleId.errorResponseAppErrors := by
  rw [checkErrorResponse, List.mem_filterMap] at h
  obtain ⟨ret, -, hsome⟩ := h
  split at hsome
  · cases hsome; rfl
  · exact absurd hsome (by simp)

theorem mem_validateMethod_validateUsing (analysis : MethodAnalysis) (v : Violation)
    (hmem : v ∈ (validateMethod analysis).violations)
    (hrule : v.rule = RuleId.validateUsing) : checkValidateUsing analysis = some v := by
  have hm : v ∈ (checkValidateUsing analysis).toList ++
      checkSuccessResponse analysis ++ checkErrorResponse analysis := hmem
  rcases List.mem_append.mp hm with hm' | hce
  · rcases List.mem_append.mp hm' with hto | hcs
    · cases hcv : checkValidateUsing analysis with
      | none => rw [hcv] at hto; exact absurd hto (by simp)
      | some w => rw [hcv] at hto; simp at hto; rw [hto]
    · have := mem_checkSuccessResponse_rule analysis v hcs
      rw [hrule] at this; exact absurd this (by simp)
  · have := mem_checkErrorResponse_rule analysis v hce
    rw [hrule] at this; exact absurd this (by simp)

/-- C6: the request-validation rule contributes at most one violation to a
verdict, and any two request-validation violations of the same verdict are
the same violation — in particular no verdict holds both the
error-severity and the warning-severity violation of this rule. -/
theorem c6_request_validation_exclusive (analysis : MethodAnalysis) :
    ((validateMethod analysis).violations.filter
        (fun v => decide (v.rule = RuleId.validateUsing))).length ≤ 1 ∧
    ∀ v w, v ∈ (validateMethod analysis).violations →
      w ∈ (validateMethod analysis).violations →
      v.rule = RuleId.validateUsing → w.rule = RuleId.validateUsing → v = w := by
  constructor
  · have hsr : (checkSuccessResponse analysis).filter
        (fun v => decide (v.rule = RuleId.validateUsing)) = [] := by
      rw [List.filter_eq_nil_iff]
      intro v hv
      simp [mem_checkSuccessResponse_rule analysis v hv]
    have her : (checkErrorResponse analysis).filter
        (fun v => decide (v.rule = RuleId.validateUsing)) = [] := by
      rw [List.filter_eq_nil_iff]
      intro v hv
      simp [mem_checkErrorResponse_rule analysis v hv]
    have hto : (((checkValidateUsing analysis).toList).filter
        (fun v => decide (v.rule = RuleId.validateUsing))).length ≤ 1 := by
      calc (((checkValidateUsing analysis).toList).filter
              (fun v => decide (v.rule = RuleId.validateUsing))).length
          ≤ ((checkValidateUsing analysis).toList).length := List.length_filter_le _ _
        _ ≤ 1 := by cases checkValidateUsing analysis <;> simp
    have hv : (validateMethod analysis).violations =
        (checkValidateUsing analysis).toList ++
          checkSuccessResponse analysis ++ checkErrorResponse analysis := rfl
    rw [hv, List.filter_append, List.filter_append, hsr, her]
    simpa using hto
  · intro v w hv hw hrv hrw
    have h1 := mem_validateMethod_validateUsing analysis v hv hrv
    have h2 := mem_validateMethod_validateUsing analysis w hw hrw
    rw [h1] at h2
    exact Option.some.inj h2

theorem parseRouteCall_inv (call : CallExpr) (r : RouteDefinition)
    (h : parseRouteCall call = some r) :
    ∃ verb pathArg handlerArg rest controllerName methodText,
      calleeVerb call.calleeText = some verb ∧
      call.args = pathArg :: handlerArg :: rest ∧
      handlerArg.arrayElems = some [controllerName, methodText] ∧
      r = { method := verb
          , path := stripQuotes pathArg.text
          , controller := controllerName
          , handler := stripQuotes methodText
          , line := call.line
          , hasPathParams :=
              decide ((extractPathParams (stripQuotes pathArg.text)).length > 0)
          , pathParams := extractPathParams (stripQuotes pathArg.text) } := by
  unfold parseRouteCall at h
  cases hv : calleeVerb call.calleeText with
  | none => simp only [hv] at h; exact Option.noConfusion h
  | some verb =>
    simp only [hv] at h
    cases hargs : call.args with
    | nil => simp only [hargs] at h; exact Option.noConfusion h
    | cons a0 rest0 =>
      cases rest0 with
      | nil => simp only [hargs] at h; exact Option.noConfusion h
      | cons a1 rest =>
        simp only [hargs] at h
        cases he : a1.arrayElems with
        | none => simp only [he] at h; exact Option.noConfusion h
        | some elems =>
          simp only [he] at h
          cases elems with
          | nil => exact Option.noConfusion h
          | cons e1 tl1 =>
            cases tl1 with
            | nil => exact Option.noConfusion h
            | cons e2 tl2 =>
              cases tl2 with
              | cons e3 tl3 => exact Option.noConfusion h
              | nil =>
                refine ⟨verb, a0, a1, rest, e1, e2, rfl, rfl, he, ?_⟩
                injection h with h1
                exact h1.symm

/-- C4: every route record the extractor produces satisfies
`hasPathParams = (pathParams is nonempty)`. -/
theorem c4_hasPathParams_derived (callExpressions : List CallExpr) (r : RouteDefinition)
    (h : r ∈ parseRoutes callExpressions) :
    r.hasPathParams = true ↔ r.pathParams ≠ [] := by
  rw [parseRoutes, List.mem_filterMap] at h
  obtain ⟨call, -, hsome⟩ := h
  obtain ⟨verb, a0, a1, rest, e1, e2, -, -, -, rfl⟩ := parseRouteCall_inv call r hsome
  simp [List.length_pos]

/-- C4 witness: the route of `widgetRouteCall` instantiates the invariant. -/
theorem c4_hasPathParams_witness :
    widgetRoute ∈ parseRoutes [widgetRouteCall] ∧
    (widgetRoute.hasPathParams = true ↔ widgetRoute.pathParams ≠ []) :=
  ⟨by decide, c4_hasPathParams_derived [widgetRouteCall] widgetRoute (by decide)⟩

/-- C9 (amended): for every matched route-registration call, the recorded
path is the first argument's text with every quote character removed
(wherever it occurs), and the handler is the second array element's text
with every quote character removed. -/
theorem c9_quote_stripping_amended (call : CallExpr) (r : RouteDefinition)
    (pathArg handlerArg : ArgNode) (rest : List ArgNode)
    (controllerName methodText : String)
    (hsome : parseRouteCall call = some r)
    (hargs : call.args = pathArg :: handlerArg :: rest)
    (helems : handlerArg.arrayElems = some [controllerName, methodText]) :
    r.path = stripQuotes pathArg.text ∧ r.handler = stripQuotes methodText := by
  obtain ⟨verb, a0, a1, rest', e1, e2, -, hargs', helems', rfl⟩ :=
    parseRouteCall_inv call r hsome
  rw [hargs] at hargs'
  injection hargs' with h1 h2
  injection h2 with h2 h3
  subst h1; subst h2
  rw [helems] at helems'
  injection helems' with h4
  injection h4 with h5 h6
  injection h6 with h6 h7
  subst h6
  exact ⟨rfl, rfl⟩

/-- C9 witness: the quotey call instantiates the amended statement. -/
theorem c9_quote_stripping_witness :
    quoteyRoute.path = stripQuotes "\"/a\\\"b\"" ∧
    quoteyRoute.handler = stripQuotes "\"x\"" :=
  c9_quote_stripping_amended quoteyRouteCall quoteyRoute
    { text := "\"/a\\\"b\"", arrayElems := none }
    { text := "[W, \"x\"]", arrayElems := some ["W", "\"x\""] }
    [] "W" "\"x\"" (by decide) rfl rfl

/-- C8: per-call route extraction is total with an optional result, and it
returns `none` exactly when the callee does not end in a registrar verb,
fewer than two arguments are given, or the second argument is not a
two-element array literal. -/
theorem c8_parse_route_call_total (call : CallExpr) :
    parseRouteCall call = none ↔
      calleeVerb call.calleeText = none ∨ call.args.length < 2 ∨
        (2 ≤ call.args.length ∧
          isHandlerArray (call.args.getD 1 { text := "", arrayElems := none }) = false) := by
  cases hv : calleeVerb call.calleeText with
  | none => simp [parseRouteCall, hv]
  | some verb =>
    cases hargs : call.args with
    | nil => simp [parseRouteCall, hv, hargs]
    | cons a0 rest0 =>
      cases rest0 with
      | nil => simp [parseRouteCall, hv, hargs]
      | cons a1 rest =>
        cases he : a1.arrayElems with
        | none => simp [parseRouteCall, hv, hargs, he, isHandlerArray, List.getD]
        | some elems =>
          cases elems with
          | nil => simp [parseRouteCall, hv, hargs, he, isHandlerArray, List.getD]
          | cons e1 tl1 =>
            cases tl1 with
            | nil => simp [parseRouteCall, hv, hargs, he, isHandlerArray, List.getD]
            | cons e2 tl2 =>
              cases tl2 with
              | nil => simp [parseRouteCall, hv, hargs, he, isHandlerArray, List.getD]
              | cons e3 tl3 =>
                simp [parseRouteCall, hv, hargs, he, isHandlerArray, List.getD]

theorem takeWhile_of_all {α : Type} (p : α → Bool) :
    ∀ (l : List α), (∀ c ∈ l, p c = true) → l.takeWhile p = l := by
  intro l
  induction l with
  | nil => intro _; rfl
  | cons c cs ih =>
    intro h
    rw [List.takeWhile_cons, if_pos (h c (by simp))]
    rw [ih (fun d hd => h d (by simp [hd]))]

theorem scanParams_skip (c : Char) (cs : List Char) (h : ¬ c = ':') :
    scanParams (c :: cs) = scanParams cs := by
  simp [scanParams, scanParamsFuel, h]

theorem scanParams_colon_all (b : List Char) (hne : b ≠ [])
    (hall : ∀ c ∈ b, isParamChar c = true) :
    scanParams (':' :: b) = [String.mk b] := by
  have ht : b.takeWhile isParamChar = b := takeWhile_of_all isParamChar b hall
  cases b with
  | nil => exact absurd rfl hne
  | cons d ds =>
    simp [scanParams, scanParamsFuel, ht, List.drop_length]

theorem scanParams_append_no_colon (a rest : List Char) (h : ∀ c ∈ a, ¬ c = ':') :
    scanParams (a ++ rest) = scanParams rest := by
  induction a with
  | nil => rfl
  | cons c a' ih =>
    rw [List.cons_append, scanParams_skip c (a' ++ rest) (h c (by simp))]
    exact ih (fun d hd => h d (by simp [hd]))

/-- C3 (amended): the extracted path parameters are exactly the maximal
nonempty runs of letters and underscores each preceded by a colon, in
left-to-right order, preserving duplicates; a parameter name is cut at the
first character outside `[a-zA-Z_]`, so digits are not captured. -/
theorem c3_path_params_amended :
    (∀ (a b : List Char), (∀ c ∈ a, ¬ c = ':') → b ≠ [] →
        (∀ c ∈ b, isParamChar c = true) →
        extractPathParams (String.mk (a ++ ':' :: b)) = [String.mk b]) ∧
    extractPathParams "/users/:id/posts/:post_id" = ["id", "post_id"] ∧
    extractPathParams "/x/:id/:id" = ["id", "id"] := by
  refine ⟨?_, by decide, by decide⟩
  intro a b ha hb hall
  show scanParams (a ++ ':' :: b) = [String.mk b]
  rw [scanParams_append_no_colon a (':' :: b) ha, scanParams_colon_all b hb hall]

/-- C3 witness: the amended statement instantiated at path `/x/:id`. -/
theorem c3_path_params_witness :
    extractPathParams (String.mk (['/', 'x', '/'] ++ ':' :: ['i', 'd'])) =
      [String.mk ['i', 'd']] :=
  c3_path_params_amended.1 ['/', 'x', '/'] ['i', 'd'] (by decide) (by decide) (by decide)

theorem upsertRoute_keys (m : List (String × List RouteDefinition)) (r : RouteDefinition) :
    (upsertRoute m r).map Prod.fst =
      if r.controller ∈ m.map Prod.fst then m.map Prod.fst
      else m.map Prod.fst ++ [r.controller] := by
  induction m with
  | nil => simp [upsertRoute]
  | cons e rest ih =>
    obtain ⟨k, rs⟩ := e
    by_cases hk : k = r.controller
    · subst hk
      simp [upsertRoute]
    · have hk' : ¬ r.controller = k := fun h => hk h.symm
      by_cases hp : r.controller ∈ rest.map Prod.fst <;>
        simp [upsertRoute, hk, hk', hp, ih]

theorem foldl_upsert_keys_nodup (routes : List RouteDefinition) :
    ∀ (m : List (String × List RouteDefinition)), (m.map Prod.fst).Nodup →
      ((routes.foldl upsertRoute m).map Prod.fst).Nodup := by
  induction routes with
  | nil => intro m hm; simpa using hm
  | cons r rs ih =>
    intro m hm
    rw [List.foldl_cons]
    apply ih
    rw [upsertRoute_keys]
    by_cases hmem : r.controller ∈ m.map Prod.fst
    · simpa [hmem] using hm
    · rw [if_neg hmem, List.nodup_append]
      refine ⟨hm, List.nodup_singleton _, ?_⟩
      intro a ha hb
      rw [List.mem_singleton] at hb
      subst hb
      exact hmem ha

theorem analyzedControllers_sublist (projectPath : String) (project : ProjectModel)
    (config : ValidatorConfig) :
    (analyzedControllers projectPath project config).Sublist
      ((groupRoutesByController (parseRoutes project.routeCalls)).map Prod.fst) := by
  unfold analyzedControllers
  generalize groupRoutesByController (parseRoutes project.routeCalls) = l
  induction l with
  | nil => simp
  | cons e rest ih =>
    rw [List.filterMap_cons, List.map_cons]
    by_cases h : (mapGet? project.controllerFiles
        (resolveControllerPath projectPath config.controllersDir e.1)).isSome
    · simp only [h, if_true]
      exact List.Sublist.cons₂ e.1 ih
    · simp only [h, if_false]
      exact List.Sublist.cons e.1 ih

/-- C2 (amended): each controller name is analysed at most once per run
(the grouped iteration the orchestrator walks has pairwise-distinct
controller keys, so `analyzeController` parses each referenced controller
file once), but a method targeted by several routes is evaluated once per
route: two routes to `Widget.show` yield two verdicts and
`totalMethods = 2`. -/
theorem c2_parse_once_amended :
    (∀ (projectPath : String) (project : ProjectModel) (config : ValidatorConfig),
        (analyzedControllers projectPath project config).Nodup) ∧
    (runValidation "proj" projectTwoRoutes DEFAULT_CONFIG).totalMethods = 2 ∧
    (runValidation "proj" projectTwoRoutes DEFAULT_CONFIG).results.map
        (fun r : ValidationResult => r.method) = ["show", "show"] := by
  refine ⟨?_, by decide, by decide⟩
  intro projectPath project config
  have h1 : ((groupRoutesByController (parseRoutes project.routeCalls)).map Prod.fst).Nodup :=
    foldl_upsert_keys_nodup _ [] (by simp)
  exact List.Nodup.sublist (analyzedControllers_sublist projectPath project config) h1

theorem upsertRoute_controller_inv (m : List (String × List RouteDefinition))
    (r0 : RouteDefinition)
    (hm : ∀ k rs, (k, rs) ∈ m → ∀ r ∈ rs, r.controller = k) :
    ∀ k rs, (k, rs) ∈ upsertRoute m r0 → ∀ r ∈ rs, r.controller = k := by
  induction m with
  | nil =>
    intro k rs hmem r hr
    simp [upsertRoute] at hmem
    obtain ⟨rfl, rfl⟩ := hmem
    simp at hr
    subst hr
    rfl
  | cons e rest ih =>
    obtain ⟨k0, rs0⟩ := e
    intro k rs hmem r hr
    by_cases hk : k0 = r0.controller
    · simp only [upsertRoute, if_pos hk, List.mem_cons] at hmem
      rcases hmem with heq | hmem
      · injection heq with h1 h2
        rw [h2] at hr
        rw [h1]
        rcases List.mem_append.mp hr with h | h
        · exact hm k0 rs0 (by simp) r h
        · rw [List.mem_singleton] at h
          rw [h]
          exact hk.symm
      · exact hm k rs (by simp [hmem]) r hr
    · simp only [upsertRoute, if_neg hk, List.mem_cons] at hmem
      rcases hmem with heq | hmem
      · injection heq with h1 h2
        rw [h2] at hr
        rw [h1]
        exact hm k0 rs0 (by simp) r hr
      · exact ih (fun k' rs' h' => hm k' rs' (by simp [h'])) k rs hmem r hr

theorem grouped_controller_inv (routes : List RouteDefinition) :
    ∀ k rs, (k, rs) ∈ groupRoutesByController routes → ∀ r ∈ rs, r.controller = k := by
  suffices h : ∀ (m : List (String × List RouteDefinition)),
      (∀ k rs, (k, rs) ∈ m → ∀ r ∈ rs, r.controller = k) →
      ∀ k rs, (k, rs) ∈ routes.foldl upsertRoute m → ∀ r ∈ rs, r.controller = k by
    exact h [] (by simp)
  induction routes with
  | nil => intro m hm; simpa using hm
  | cons r rs ih =>
    intro m hm
    rw [List.foldl_cons]
    exact ih (upsertRoute m r) (upsertRoute_controller_inv m r hm)

theorem filterMap_tagged_map_snd (l : List RouteDefinition)
    (f : RouteDefinition → Option ValidationResult) :
    (l.filterMap (fun rt => (f rt).map (fun v => (rt, v)))).map Prod.snd =
      l.filterMap f := by
  induction l with
  | nil => rfl
  | cons rt rest ih => cases h : f rt <;> simp [List.filterMap_cons, h, ih]

/-- C7: every verdict of a run comes from a route whose
`Controller.handler` key is outside the whitelist — the tagged route loop
erases to the run's verdict list, and every tagged route has a
non-whitelisted key, so a whitelisted route contributes no verdict and
nothing to any counter. -/
theorem c7_whitelist_excluded (projectPath : String) (project : ProjectModel)
    (config : ValidatorConfig) :
    (taggedResults projectPath project config).map Prod.snd =
        (runValidation projectPath project config).results ∧
    ∀ (rt : RouteDefinition) (v : ValidationResult),
      (rt, v) ∈ taggedResults projectPath project config →
        (rt.controller ++ "." ++ rt.handler) ∉ config.whitelist := by
  constructor
  · show (taggedResults projectPath project config).map Prod.snd =
      (groupRoutesByController (parseRoutes project.routeCalls)).flatMap
        (controllerResults projectPath config project)
    unfold taggedResults
    rw [List.map_flatMap]
    congr 1
    funext entry
    unfold controllerResults
    cases h : mapGet? project.controllerFiles
        (resolveControllerPath projectPath config.controllersDir entry.1) with
    | none => simp [h]
    | some file =>
      simp only [h]
      exact filterMap_tagged_map_snd entry.2 _
  · intro rt v hmem
    unfold taggedResults at hmem
    rw [List.mem_flatMap] at hmem
    obtain ⟨entry, hentry, hin⟩ := hmem
    cases hlook : mapGet? project.controllerFiles
        (resolveControllerPath projectPath config.controllersDir entry.1) with
    | none => simp only [hlook] at hin; exact absurd hin (by simp)
    | some file =>
      simp only [hlook] at hin
      rw [List.mem_filterMap] at hin
      obtain ⟨rt', hrt', hsome⟩ := hin
      unfold routeVerdictTagged? at hsome
      cases hv : routeVerdict? config.whitelist entry.1
          (analyzeController file
            (resolveControllerPath projectPath config.controllersDir entry.1)) rt' with
      | none => rw [hv] at hsome; exact Option.noConfusion hsome
      | some v' =>
        rw [hv] at hsome
        injection hsome with hpair
        have hfst : rt' = rt := congrArg Prod.fst hpair
        rw [← hfst]
        unfold routeVerdict? at hv
        by_cases hwl : config.whitelist.contains (entry.1 ++ "." ++ rt'.handler) = true
        · rw [if_pos hwl] at hv
          exact Option.noConfusion hv
        · have hctrl : rt'.controller = entry.1 :=
            grouped_controller_inv (parseRoutes project.routeCalls) entry.1 entry.2
              (by simpa using hentry) rt' hrt'
          rw [hctrl]
          intro hmem2
          exact hwl (List.elem_iff.mpr hmem2)

end AdonisValidator
